import Mathlib

/-!
Verification development for the asmo-01-health core: the time-series
retention store (`src/utils/storage.py`), the threshold evaluator
(`src/utils/metrics.py`), and the analysis pipeline (`src/reporter.py`).

The Python code is shallowly embedded: dictionaries become structures with
`Option` fields where the code uses `dict.get` or may raise `KeyError`,
file contents become an explicit in-memory list (the store performs whole
read-modify-write cycles), numeric values become `ℚ`, timestamps become
`ℚ` seconds (a `datetime` is totally ordered and subtracted by
`timedelta`s, which is all the code uses).
-/

namespace AsmoHealth

/-- A raw timestamp field value: either one that `datetime.fromisoformat`
parses (carrying the parsed time as rational seconds) or one that makes it
raise `ValueError`. -/
inductive Timestamp where
  | valid (t : ℚ)
  | invalid (s : String)
deriving DecidableEq, Repr

/-- One history entry as stored by `HealthStorage`: the `timestamp` key may
be absent (`none`), and the rest of the dictionary is abstracted as an
opaque payload (the storage layer never inspects other keys). -/
structure Entry where
  timestamp : Option Timestamp
  payload : Nat
deriving DecidableEq, Repr

/-- `datetime.fromisoformat(entry['timestamp'])` as a total function:
`none` when the key is missing (`KeyError`) or the value unparsable
(`ValueError`). -/
def parseTs (e : Entry) : Option ℚ :=
  match e.timestamp with
  | some (.valid t) => some t
  | _ => none

/-- `HealthStorage.add_entry`, lines 59-61: if `'timestamp' not in entry`,
set it to `datetime.now().isoformat()`. -/
def ensureTimestamp (now : ℚ) (e : Entry) : Entry :=
  match e.timestamp with
  | none => { e with timestamp := some (.valid now) }
  | some _ => e

/-- `HealthStorage._cleanup_old_entries`: keep entries whose parsed
timestamp is `≥ now - retention_days` days; entries whose timestamp is
missing or unparsable are kept (the `except (KeyError, ValueError)`
branch appends them). -/
def cleanupOldEntries (retentionDays : ℕ) (now : ℚ) (history : List Entry) :
    List Entry :=
  let cutoff := now - (retentionDays : ℚ) * 86400
  history.filter fun e =>
    match parseTs e with
    | some t => decide (cutoff ≤ t)
    | none => true

/-- `HealthStorage.add_entry`: ensure a timestamp, load the current
history, append the new entry, run cleanup, write back.  The persisted
file is modelled as the explicit `history` list. -/
def addEntry (retentionDays : ℕ) (now : ℚ) (history : List Entry)
    (entry : Entry) : List Entry :=
  cleanupOldEntries retentionDays now (history ++ [ensureTimestamp now entry])

/-- `HealthStorage.get_last_24h`: keep entries whose parsed timestamp is
`≥ now - 24h`; entries with a missing or unparsable timestamp hit the
`except` branch and are skipped (`continue`). -/
def getLast24h (now : ℚ) (history : List Entry) : List Entry :=
  let cutoff := now - 86400
  history.filter fun e =>
    match parseTs e with
    | some t => decide (cutoff ≤ t)
    | none => false

/-- `HealthStorage.get_latest_entry`: `history[-1] if history else None`. -/
def getLatestEntry (history : List Entry) : Option Entry :=
  history.getLast?

/-! ## Threshold evaluator (`src/utils/metrics.py`, `SystemMetrics.check_thresholds`) -/

/-- One element of the snapshot's `disks` list; `check_thresholds` indexes
`disk['used_percent']` and `disk['mount']` directly, so both are required. -/
structure Disk where
  mount : String
  used_percent : ℚ
deriving DecidableEq, Repr

/-- The keys of the `metrics` dictionary that `check_thresholds` reads,
each through `metrics.get(...)`, hence optional. -/
structure MetricsDict where
  cpu_percent : Option ℚ
  ram_percent : Option ℚ
  disks : Option (List Disk)
deriving DecidableEq, Repr

/-- The keys of the `thresholds` dictionary that `check_thresholds` reads,
each through `thresholds.get(key, default)`, hence optional. -/
structure Thresholds where
  cpu_warning : Option ℚ
  cpu_critical : Option ℚ
  ram_warning : Option ℚ
  ram_critical : Option ℚ
  disk_warning : Option ℚ
  disk_critical : Option ℚ
deriving DecidableEq, Repr

/-- The content of one violation message (the Python code builds f-strings;
the message's identity and numeric payload are kept, the formatting is not
modelled). -/
inductive Violation where
  | cpuCritical (v : ℚ)
  | cpuWarning (v : ℚ)
  | ramCritical (v : ℚ)
  | ramWarning (v : ℚ)
  | diskCritical (mount : String) (v : ℚ)
  | diskWarning (mount : String) (v : ℚ)
deriving DecidableEq, Repr

/-- The `violations` result dictionary with its two buckets. -/
structure Violations where
  warnings : List Violation
  critical : List Violation
deriving DecidableEq, Repr

/-- Body of the `for disk in metrics.get('disks', [])` loop of
`check_thresholds` (lines 172-179). -/
def checkDisk (t : Thresholds) (v : Violations) (d : Disk) : Violations :=
  if d.used_percent ≥ t.disk_critical.getD 90 then
    { v with critical := v.critical ++ [.diskCritical d.mount d.used_percent] }
  else if d.used_percent ≥ t.disk_warning.getD 80 then
    { v with warnings := v.warnings ++ [.diskWarning d.mount d.used_percent] }
  else v

/-- `SystemMetrics.check_thresholds` (lines 141-181): CPU check, then RAM
check, then one check per disk entry. -/
def checkThresholds (metrics : MetricsDict) (t : Thresholds) : Violations :=
  let v0 : Violations := ⟨[], []⟩
  let cpu := metrics.cpu_percent.getD 0
  let v1 :=
    if cpu ≥ t.cpu_critical.getD 95 then
      { v0 with critical := v0.critical ++ [.cpuCritical cpu] }
    else if cpu ≥ t.cpu_warning.getD 80 then
      { v0 with warnings := v0.warnings ++ [.cpuWarning cpu] }
    else v0
  let ram := metrics.ram_percent.getD 0
  let v2 :=
    if ram ≥ t.ram_critical.getD 95 then
      { v1 with critical := v1.critical ++ [.ramCritical ram] }
    else if ram ≥ t.ram_warning.getD 85 then
      { v1 with warnings := v1.warnings ++ [.ramWarning ram] }
    else v1
  (metrics.disks.getD []).foldl (checkDisk t) v2

/-! ## Entity health aggregation (`src/reporter.py`, `analyze_container_health`)

A container record is a dictionary; `analyze_container_health` indexes
`container['name']` and `container['status']` directly (these raise
`KeyError` when absent, modelled by the `Option` monad failing) and reads
`restarts`, `mem_mb`, `cpu_percent`, `errors` through `.get` with a
zero/empty default. -/

structure ContainerRecord where
  name : Option String
  status : Option String
  restarts : Option ℕ
  mem_mb : Option ℚ
  cpu_percent : Option ℚ
  errors : Option (List String)
deriving DecidableEq, Repr

/-- One history entry as the reporter sees it: only the `containers` key
is read (through `entry.get('containers', [])`). -/
structure Snapshot where
  containers : Option (List ContainerRecord)
deriving DecidableEq, Repr

/-- The per-container accumulator dictionary initialised at reporter.py
lines 123-131. -/
structure StatsAcc where
  name : String
  uptime_checks : ℕ
  down_checks : ℕ
  total_restarts : ℕ
  errors : List String
  mem_values : List ℚ
  cpu_values : List ℚ
deriving DecidableEq, Repr

def initStats (name : String) : StatsAcc :=
  { name := name, uptime_checks := 0, down_checks := 0, total_restarts := 0,
    errors := [], mem_values := [], cpu_values := [] }

/-- Lines 136-153: fold one container record into its accumulator.
`container['status']` is a direct index, so a missing status fails.
`if container.get('mem_mb'):` is Python truthiness: a missing key and a
zero value are both skipped (likewise for `cpu_percent`). -/
def updateStats (acc : StatsAcc) (c : ContainerRecord) : Option StatsAcc := do
  let status ← c.status
  let acc :=
    if status = "running" then { acc with uptime_checks := acc.uptime_checks + 1 }
    else { acc with down_checks := acc.down_checks + 1 }
  let acc := { acc with total_restarts := max acc.total_restarts (c.restarts.getD 0) }
  let acc :=
    match c.mem_mb with
    | some v => if v ≠ 0 then { acc with mem_values := acc.mem_values ++ [v] } else acc
    | none => acc
  let acc :=
    match c.cpu_percent with
    | some v => if v ≠ 0 then { acc with cpu_values := acc.cpu_values ++ [v] } else acc
    | none => acc
  return { acc with
    errors := (c.errors.getD []).foldl
      (fun es e => if e ∈ es then es else es ++ [e]) acc.errors }

/-- Lookup in the insertion-ordered `container_stats` dictionary, modelled
as an association list. -/
def findStats : List (String × StatsAcc) → String → Option StatsAcc
  | [], _ => none
  | p :: rest, n => if p.1 = n then some p.2 else findStats rest n

/-- In-place dictionary update: replace the value stored under key `n`,
keeping positions. -/
def replaceStats (stats : List (String × StatsAcc)) (n : String) (a : StatsAcc) :
    List (String × StatsAcc) :=
  stats.map fun p => if p.1 = n then (n, a) else p

/-- Body of the `for container in entry.get('containers', [])` loop
(lines 119-153): index `container['name']` (fails when absent), create the
accumulator on first sight (insertion order preserved), then update it. -/
def processContainer (stats : List (String × StatsAcc)) (c : ContainerRecord) :
    Option (List (String × StatsAcc)) := do
  let n ← c.name
  let stats1 :=
    if (findStats stats n).isSome then stats else stats ++ [(n, initStats n)]
  let a ← updateStats ((findStats stats1 n).getD (initStats n)) c
  return replaceStats stats1 n a

/-- The `for entry in history` loop body over one entry's containers. -/
def processEntry (stats : List (String × StatsAcc)) (s : Snapshot) :
    Option (List (String × StatsAcc)) :=
  (s.containers.getD []).foldlM processContainer stats

/-- The aggregation phase of `analyze_container_health` (lines 116-153). -/
def aggregateStats (history : List Snapshot) : Option (List (String × StatsAcc)) :=
  history.foldlM processEntry []

/-- Python's `round(q, 2)` on the exact decimal value: round half to even
(the source rounds IEEE doubles; ties are modelled on the exact rational,
which is what the code's comments and the derived values intend). -/
def roundHalfEven (q : ℚ) : ℤ :=
  if q - ⌊q⌋ < 1/2 then ⌊q⌋
  else if q - ⌊q⌋ > 1/2 then ⌊q⌋ + 1
  else if ⌊q⌋ % 2 = 0 then ⌊q⌋ else ⌊q⌋ + 1

def round2 (q : ℚ) : ℚ := (roundHalfEven (q * 100) : ℚ) / 100

def listSum (l : List ℚ) : ℚ := l.foldl (· + ·) 0

/-- Python `max` over a nonempty list (callers guard the empty case). -/
def listMax : List ℚ → ℚ
  | [] => 0
  | x :: xs => xs.foldl max x

/-- The finalised per-container stats dictionary: the accumulator keys are
kept and the derived keys of lines 156-175 are added. -/
structure ContainerStats where
  name : String
  uptime_checks : ℕ
  down_checks : ℕ
  total_restarts : ℕ
  errors : List String
  uptime_percent : ℚ
  avg_mem_mb : ℚ
  max_mem_mb : ℚ
  avg_cpu_percent : ℚ
  max_cpu_percent : ℚ
deriving DecidableEq, Repr

/-- Lines 156-175: derive `uptime_percent`, resource averages/maxima, and
truncate the error list to the configured maximum. -/
def finalizeStats (maxErrors : ℕ) (a : StatsAcc) : ContainerStats :=
  let total := a.uptime_checks + a.down_checks
  { name := a.name
    uptime_checks := a.uptime_checks
    down_checks := a.down_checks
    total_restarts := a.total_restarts
    uptime_percent :=
      if 0 < total then round2 ((a.uptime_checks : ℚ) / (total : ℚ) * 100) else 0
    avg_mem_mb :=
      if a.mem_values ≠ [] then
        round2 (listSum a.mem_values / (a.mem_values.length : ℚ)) else 0
    max_mem_mb := if a.mem_values ≠ [] then round2 (listMax a.mem_values) else 0
    avg_cpu_percent :=
      if a.cpu_values ≠ [] then
        round2 (listSum a.cpu_values / (a.cpu_values.length : ℚ)) else 0
    max_cpu_percent := if a.cpu_values ≠ [] then round2 (listMax a.cpu_values) else 0
    errors := a.errors.take maxErrors }

/-- `analyze_container_health(history, config)`; `maxErrors` is
`config['reporting'].get('max_errors_in_report', 10)`.  Returns `none`
when the Python function raises (a record without `name` or `status`). -/
def analyzeContainerHealth (maxErrors : ℕ) (history : List Snapshot) :
    Option (List ContainerStats) := do
  let stats ← aggregateStats history
  return stats.map fun p => finalizeStats maxErrors p.2

/-! ## Problem ranking (`src/reporter.py`, `identify_problematic_containers`) -/

inductive Severity where
  | info
  | warning
  | critical
deriving DecidableEq, Repr

/-- The content of one issue string appended at lines 198, 203, 211. -/
inductive Issue where
  | uptime (pct : ℚ)
  | restarts (n : ℕ)
  | errorTypes (n : ℕ)
deriving DecidableEq, Repr

structure Problem where
  name : String
  severity : Severity
  issues : List Issue
  errors : List String
  stats_uptime_percent : ℚ
  stats_restarts : ℕ
  stats_avg_mem_mb : ℚ
deriving DecidableEq, Repr

/-- Lines 193-213 of `identify_problematic_containers`: the uptime check,
the restart check, then the error check, each updating `issues` and
`severity` exactly as the source does. -/
def evalProblem (s : ContainerStats) : List Issue × Severity :=
  let issues : List Issue := []
  let severity := Severity.info
  let (issues, severity) :=
    if s.uptime_percent < 100 then
      (issues ++ [.uptime s.uptime_percent],
       if s.uptime_percent > 90 then Severity.warning else Severity.critical)
    else (issues, severity)
  let (issues, severity) :=
    if s.total_restarts > 0 then
      (issues ++ [.restarts s.total_restarts],
       if s.total_restarts ≥ 5 then Severity.critical
       else if s.total_restarts ≥ 3 then Severity.warning
       else severity)
    else (issues, severity)
  let (issues, severity) :=
    if s.errors ≠ [] then
      (issues ++ [.errorTypes s.errors.length],
       if severity = Severity.info then Severity.warning else severity)
    else (issues, severity)
  (issues, severity)

/-- The severity an entity's stats are reported with. -/
def severityOf (s : ContainerStats) : Severity := (evalProblem s).2

/-- Lines 215-226: emit a problem record when any issue was recorded. -/
def mkProblem (s : ContainerStats) : Option Problem :=
  let p := evalProblem s
  if p.1 ≠ [] then
    some { name := s.name, severity := p.2, issues := p.1,
           errors := s.errors.take 3,
           stats_uptime_percent := s.uptime_percent,
           stats_restarts := s.total_restarts,
           stats_avg_mem_mb := s.avg_mem_mb }
  else none

/-- `severity_order` at line 229. -/
def severityOrder : Severity → ℕ
  | .critical => 0
  | .warning => 1
  | .info => 2

/-- Stable insertion of a problem into an already-sorted list: `p` goes
before the first element of not-smaller severity rank, so elements of equal
rank keep their original relative order. -/
def insertProblem (p : Problem) : List Problem → List Problem
  | [] => [p]
  | q :: rest =>
    if severityOrder p.severity ≤ severityOrder q.severity then p :: q :: rest
    else q :: insertProblem p rest

/-- Stable sort by severity rank, modelling Python's stable
`problems.sort(key=lambda x: severity_order[x['severity']])`. -/
def sortProblems : List Problem → List Problem
  | [] => []
  | p :: rest => insertProblem p (sortProblems rest)

/-- `identify_problematic_containers(container_stats)`: build the problem
list in dictionary iteration order, then sort it stably by severity rank. -/
def identifyProblematicContainers (stats : List ContainerStats) : List Problem :=
  sortProblems (stats.filterMap mkProblem)

/-! ## Specification-side counting functions

Used to state the aggregation claims independently of the fold: the flat
sequence of container records a history window presents, and direct counts
of observations per entity name. -/

/-- All container records of a window, in processing order. -/
def recordsOf (history : List Snapshot) : List ContainerRecord :=
  (history.map fun s => s.containers.getD []).flatten

/-- A record is an observation of entity `n`. -/
def obsP (n : String) (c : ContainerRecord) : Bool := c.name == some n

/-- A record is a running observation of entity `n`. -/
def runP (n : String) (c : ContainerRecord) : Bool :=
  c.name == some n && c.status == some "running"

/-- Number of records naming `n` (observations of entity `n`). -/
def countObs (n : String) (history : List Snapshot) : ℕ :=
  (recordsOf history).countP (obsP n)

/-- Number of records naming `n` whose status is `running`. -/
def countRunning (n : String) (history : List Snapshot) : ℕ :=
  (recordsOf history).countP (runP n)

/-- Invariant of the aggregation fold: relative to the records already
processed, every tracked entity's accumulator holds its true running and
total observation counts, and untracked names have no observations. -/
def statsInv (seen : List ContainerRecord)
    (stats : List (String × StatsAcc)) : Prop :=
  (∀ p ∈ stats, p.2.name = p.1
    ∧ p.2.uptime_checks = seen.countP (runP p.1)
    ∧ p.2.uptime_checks + p.2.down_checks = seen.countP (obsP p.1))
  ∧ ∀ n : String, findStats stats n = none → seen.countP (obsP n) = 0

/-! ## Concrete fixtures used by witnesses and counterexamples -/

/-- A reference instant: ten days after the epoch of the model. -/
def now0 : ℚ := 10 * 86400

def entry8 : Entry := ⟨some (.valid (now0 - 8 * 86400)), 8⟩

def entry6 : Entry := ⟨some (.valid (now0 - 6 * 86400)), 6⟩

def entryBad : Entry := ⟨some (.invalid "oops"), 99⟩

def entryNoTs : Entry := ⟨none, 7⟩

def hist0 : List Entry := [entry8, entry6, entryBad]

def entryFuture : Entry := ⟨some (.valid (now0 + 3600)), 1⟩

def runRec : ContainerRecord := ⟨some "web", some "running", none, none, none, none⟩

def downRec : ContainerRecord := ⟨some "web", some "exited", none, none, none, none⟩

/-- Ten snapshots of entity `web`: running in nine, down in one. -/
def hist10 : List Snapshot :=
  List.replicate 9 (⟨some [runRec]⟩ : Snapshot) ++ [(⟨some [downRec]⟩ : Snapshot)]

/-- Stats of an entity whose uptime is in the critical band while its
restart count lies in the warning band. -/
def exStats : ContainerStats :=
  { name := "web", uptime_checks := 5, down_checks := 5, total_restarts := 4,
    errors := [], uptime_percent := 50, avg_mem_mb := 0, max_mem_mb := 0,
    avg_cpu_percent := 0, max_cpu_percent := 0 }

/-- Stats of an entity whose uptime is exactly 90 percent. -/
def borderStats : ContainerStats :=
  { name := "db", uptime_checks := 9, down_checks := 1, total_restarts := 0,
    errors := [], uptime_percent := 90, avg_mem_mb := 0, max_mem_mb := 0,
    avg_cpu_percent := 0, max_cpu_percent := 0 }

/-- The accumulator `hist10` produces for `web`. -/
def webAcc : StatsAcc :=
  { name := "web", uptime_checks := 9, down_checks := 1, total_restarts := 0,
    errors := [], mem_values := [], cpu_values := [] }

/-- The finalised stats `hist10` produces for `web`. -/
def webStats : ContainerStats :=
  { name := "web", uptime_checks := 9, down_checks := 1, total_restarts := 0,
    errors := [], uptime_percent := 90, avg_mem_mb := 0, max_mem_mb := 0,
    avg_cpu_percent := 0, max_cpu_percent := 0 }

/-- A window whose records carry name and status but none of the optional
fields, plus one entry without a `containers` key. -/
def degradedHist : List Snapshot :=
  [⟨some [⟨some "api", some "running", none, none, none, none⟩]⟩,
   ⟨some [⟨some "api", some "exited", none, none, none, none⟩]⟩,
   ⟨none⟩]

/-! # Theorems

## Retention store -/

/-- Eviction keeps exactly the entries that are in the input and whose
timestamp, when it parses, clears the cutoff. -/
lemma mem_cleanupOldEntries_iff (days : ℕ) (now : ℚ) (history : List Entry)
    (e : Entry) :
    e ∈ cleanupOldEntries days now history ↔
      e ∈ history ∧ ∀ t, parseTs e = some t → now - (days : ℚ) * 86400 ≤ t := by
  unfold cleanupOldEntries
  cases h : parseTs e with
  | none => simp [List.mem_filter, h]
  | some t => simp [List.mem_filter, h]

/-- Window-query membership: in the input, parseable, and past the cutoff. -/
lemma mem_getLast24h_iff (now : ℚ) (history : List Entry) (e : Entry) :
    e ∈ getLast24h now history ↔
      e ∈ history ∧ ∃ t, parseTs e = some t ∧ now - 86400 ≤ t := by
  unfold getLast24h
  cases h : parseTs e with
  | none => simp [List.mem_filter, h]
  | some t => simp [List.mem_filter, h]

/-- C3: with a 7-day retention horizon, after any append every retained
entry with a parseable timestamp is at most 7 days old at write time; an
entry timestamped 8 days ago is gone, an entry timestamped 6 days ago
persists, and every entry within the horizon survives the append. -/
theorem retention_age_bound (now : ℚ) (history : List Entry) (e : Entry) :
    (∀ e' ∈ addEntry 7 now history e, ∀ t, parseTs e' = some t →
      now - 7 * 86400 ≤ t)
    ∧ (∀ e8 ∈ history, parseTs e8 = some (now - 8 * 86400) →
        e8 ∉ addEntry 7 now history e)
    ∧ (∀ e6 ∈ history, parseTs e6 = some (now - 6 * 86400) →
        e6 ∈ addEntry 7 now history e)
    ∧ (∀ er ∈ history, ∀ t, parseTs er = some t → now - 7 * 86400 ≤ t →
        er ∈ addEntry 7 now history e) := by
  have hcast : ((7 : ℕ) : ℚ) * 86400 = 7 * 86400 := by norm_num
  refine ⟨?_, ?_, ?_, ?_⟩
  · intro e' he' t ht
    have := ((mem_cleanupOldEntries_iff 7 now _ e').mp he').2 t ht
    linarith [this, le_of_eq hcast]
  · intro e8 h8 ht hmem
    have := ((mem_cleanupOldEntries_iff 7 now _ e8).mp hmem).2 _ ht
    rw [hcast] at this
    linarith
  · intro e6 h6 ht
    refine (mem_cleanupOldEntries_iff 7 now _ e6).mpr ⟨by simp [h6], ?_⟩
    intro t htt
    rw [ht] at htt
    cases htt
    rw [hcast]
    linarith
  · intro er hr t ht hle
    refine (mem_cleanupOldEntries_iff 7 now _ er).mpr ⟨by simp [hr], ?_⟩
    intro t' ht'
    rw [ht] at ht'
    cases ht'
    rw [hcast]
    linarith

/-- Witness for C3: in a concrete store, the 8-day-old entry is evicted by
an append and the 6-day-old entry survives it. -/
theorem retention_age_bound_witness :
    entry8 ∉ addEntry 7 now0 hist0 entryNoTs
    ∧ entry6 ∈ addEntry 7 now0 hist0 entryNoTs := by
  have h := retention_age_bound now0 hist0 entryNoTs
  exact ⟨h.2.1 entry8 (by simp [hist0]) rfl, h.2.2.1 entry6 (by simp [hist0]) rfl⟩

/-- C4 counterexample: an entry timestamped strictly in the future (one
hour past `now`) is returned by the 24-hour window query. -/
theorem window_future_entry_returned :
    getLast24h now0 [entryFuture] = [entryFuture]
    ∧ parseTs entryFuture = some (now0 + 3600) ∧ now0 < now0 + 3600 := by
  refine ⟨?_, rfl, by norm_num⟩
  unfold getLast24h
  rw [List.filter_cons, List.filter_nil]
  simp only [parseTs, entryFuture]
  simp
  linarith

/-- C4 (amended): the 24-hour window query returns exactly the entries
whose parseable timestamp is at least `now - 24h`; there is no upper bound,
so future-timestamped entries are returned as well. -/
theorem window_membership (now : ℚ) (history : List Entry) (e : Entry) :
    e ∈ getLast24h now history ↔
      e ∈ history ∧ ∃ t, parseTs e = some t ∧ now - 86400 ≤ t :=
  mem_getLast24h_iff now history e

/-- Witness for C4 (amended): the window query keeps a future entry. -/
theorem window_membership_witness :
    entryFuture ∈ getLast24h now0 [entryFuture] :=
  (window_membership now0 [entryFuture] entryFuture).mpr
    ⟨by simp, now0 + 3600, rfl, by linarith⟩

/-- C5: an entry whose timestamp is missing or unparsable is kept by
eviction (hence still present after any append) but is excluded from the
24-hour window query. -/
theorem unparsable_asymmetry (days : ℕ) (now : ℚ) (history : List Entry)
    (e x : Entry) (hmem : e ∈ history) (hbad : parseTs e = none) :
    e ∈ cleanupOldEntries days now history
    ∧ e ∈ addEntry days now history x
    ∧ e ∉ getLast24h now history := by
  refine ⟨?_, ?_, ?_⟩
  · exact (mem_cleanupOldEntries_iff days now history e).mpr
      ⟨hmem, fun t ht => by rw [hbad] at ht; cases ht⟩
  · exact (mem_cleanupOldEntries_iff days now _ e).mpr
      ⟨by simp [hmem], fun t ht => by rw [hbad] at ht; cases ht⟩
  · intro hc
    obtain ⟨-, t, ht, -⟩ := (mem_getLast24h_iff now history e).mp hc
    rw [hbad] at ht
    cases ht

/-- Witness for C5 at a concrete store with one unparsable-timestamp entry. -/
theorem unparsable_asymmetry_witness :
    entryBad ∈ cleanupOldEntries 7 now0 hist0
    ∧ entryBad ∈ addEntry 7 now0 hist0 entryNoTs
    ∧ entryBad ∉ getLast24h now0 hist0 :=
  unparsable_asymmetry 7 now0 hist0 entryBad entryNoTs (by simp [hist0]) rfl

/-- C10: appending an entry that eviction will keep (timestamp missing —
then filled with `now` —, unparsable, or within the horizon) makes it the
result of `latest()`; eviction is a filter, so it preserves the relative
order of retained entries. -/
theorem append_then_latest (days : ℕ) (now : ℚ) (history : List Entry)
    (e : Entry)
    (h : e.timestamp = none ∨ (∃ s, e.timestamp = some (.invalid s))
      ∨ ∃ t, e.timestamp = some (.valid t) ∧ now - (days : ℚ) * 86400 ≤ t) :
    getLatestEntry (addEntry days now history e) = some (ensureTimestamp now e)
    ∧ ∀ l : List Entry, (cleanupOldEntries days now l).Sublist l := by
  constructor
  · have hkeep : cleanupOldEntries days now [ensureTimestamp now e] =
        [ensureTimestamp now e] := by
      rcases h with h | ⟨s, h⟩ | ⟨t, h, hle⟩
      · have h0 : (0 : ℚ) ≤ (days : ℚ) * 86400 := by positivity
        simp [cleanupOldEntries, ensureTimestamp, h, parseTs]
      · simp [cleanupOldEntries, ensureTimestamp, h, parseTs]
      · simp [cleanupOldEntries, ensureTimestamp, h, parseTs]
        linarith
    unfold addEntry getLatestEntry
    unfold cleanupOldEntries at hkeep ⊢
    rw [List.filter_append, hkeep, List.getLast?_concat]
  · intro l
    exact List.filter_sublist l

/-- Witness for C10: appending a timestampless entry to a concrete store
makes it (timestamp filled in) the latest entry. -/
theorem append_then_latest_witness :
    getLatestEntry (addEntry 7 now0 hist0 entryNoTs) =
      some (ensureTimestamp now0 entryNoTs) :=
  (append_then_latest 7 now0 hist0 entryNoTs (Or.inl rfl)).1

/-! ## Threshold evaluator -/

/-- The disk loop as a fold: each disk entry is appended to the bucket its
own level picks, independently of the other disks. -/
lemma foldl_checkDisk (t : Thresholds) (disks : List Disk) (acc : Violations) :
    disks.foldl (checkDisk t) acc =
      ⟨acc.warnings ++ (disks.filter fun d =>
          decide (¬ d.used_percent ≥ t.disk_critical.getD 90)
            && decide (d.used_percent ≥ t.disk_warning.getD 80)).map
          (fun d => .diskWarning d.mount d.used_percent),
       acc.critical ++ (disks.filter fun d =>
          decide (d.used_percent ≥ t.disk_critical.getD 90)).map
          (fun d => .diskCritical d.mount d.used_percent)⟩ := by
  induction disks generalizing acc with
  | nil => simp
  | cons d rest ih =>
    rw [List.foldl_cons, ih]
    unfold checkDisk
    split_ifs with h1 h2 <;> simp_all

/-- C2 counterexample: with an entirely unconfigured threshold map, a CPU
reading of 96 still yields a critical violation — the evaluator falls back
to a built-in level instead of skipping the check. -/
theorem default_threshold_counterexample :
    checkThresholds ⟨some 96, none, none⟩ ⟨none, none, none, none, none, none⟩ =
      ⟨[], [.cpuCritical 96]⟩ := by
  norm_num [checkThresholds]

/-- C2 (amended): a metric whose warning/critical levels are absent from
the configuration is not skipped: it is checked against built-in default
levels — CPU warning 80 / critical 95, RAM warning 85 / critical 95, disk
warning 80 / critical 90. -/
theorem default_threshold_levels (v : ℚ) (m : String) :
    (checkThresholds ⟨some v, none, none⟩ ⟨none, none, none, none, none, none⟩ =
      if v ≥ 95 then ⟨[], [.cpuCritical v]⟩
      else if v ≥ 80 then ⟨[.cpuWarning v], []⟩ else ⟨[], []⟩)
    ∧ (checkThresholds ⟨none, some v, none⟩ ⟨none, none, none, none, none, none⟩ =
      if v ≥ 95 then ⟨[], [.ramCritical v]⟩
      else if v ≥ 85 then ⟨[.ramWarning v], []⟩ else ⟨[], []⟩)
    ∧ (checkThresholds ⟨none, none, some [⟨m, v⟩]⟩ ⟨none, none, none, none, none, none⟩ =
      if v ≥ 90 then ⟨[], [.diskCritical m v]⟩
      else if v ≥ 80 then ⟨[.diskWarning m v], []⟩ else ⟨[], []⟩) := by
  refine ⟨?_, ?_, ?_⟩ <;> norm_num [checkThresholds, checkDisk]

/-- C7: with both levels configured, each scalar metric — CPU, RAM, and
every disk mount — is classified critical when its value reaches the
critical level, else warning when it reaches the warning level, else
reported nowhere; every disk entry is classified independently of the
others; CPU 96 against {80, 95} is critical and not warning, 82 is a
warning, 50 is no violation. -/
theorem threshold_classification (v w c dw dc : ℚ) (disks : List Disk) :
    (checkThresholds ⟨some v, none, none⟩ ⟨some w, some c, none, none, none, none⟩ =
      if v ≥ c then ⟨[], [.cpuCritical v]⟩
      else if v ≥ w then ⟨[.cpuWarning v], []⟩ else ⟨[], []⟩)
    ∧ (checkThresholds ⟨none, some v, none⟩ ⟨none, none, some w, some c, none, none⟩ =
      if v ≥ c then ⟨[], [.ramCritical v]⟩
      else if v ≥ w then ⟨[.ramWarning v], []⟩ else ⟨[], []⟩)
    ∧ (checkThresholds ⟨none, none, some disks⟩
        ⟨none, none, none, none, some dw, some dc⟩ =
      ⟨(disks.filter fun d =>
          decide (¬ d.used_percent ≥ dc) && decide (d.used_percent ≥ dw)).map
          (fun d => .diskWarning d.mount d.used_percent),
       (disks.filter fun d => decide (d.used_percent ≥ dc)).map
          (fun d => .diskCritical d.mount d.used_percent)⟩)
    ∧ checkThresholds ⟨some 96, none, none⟩ ⟨some 80, some 95, none, none, none, none⟩ =
        ⟨[], [.cpuCritical 96]⟩
    ∧ checkThresholds ⟨some 82, none, none⟩ ⟨some 80, some 95, none, none, none, none⟩ =
        ⟨[.cpuWarning 82], []⟩
    ∧ checkThresholds ⟨some 50, none, none⟩ ⟨some 80, some 95, none, none, none, none⟩ =
        ⟨[], []⟩ := by
  refine ⟨?_, ?_, ?_, by norm_num [checkThresholds], by norm_num [checkThresholds],
    by norm_num [checkThresholds]⟩
  · norm_num [checkThresholds]
  · norm_num [checkThresholds]
  · norm_num [checkThresholds, foldl_checkDisk]

/-! ## Problem ranking -/

/-- C1 counterexample: an entity whose uptime (50) is in the critical band
and whose restart count (4) lies in [3,5) is reported with severity
warning — the restart check lowered the severity assigned by the uptime
check. -/
theorem restart_check_lowers_severity :
    identifyProblematicContainers [exStats] =
      [{ name := "web", severity := .warning,
         issues := [.uptime 50, .restarts 4], errors := [],
         stats_uptime_percent := 50, stats_restarts := 4,
         stats_avg_mem_mb := 0 }]
    ∧ exStats.uptime_percent < 90 ∧ 3 ≤ exStats.total_restarts
    ∧ exStats.total_restarts < 5 := by
  refine ⟨?_, by norm_num [exStats], by norm_num [exStats], by norm_num [exStats]⟩
  norm_num [identifyProblematicContainers, sortProblems, insertProblem,
    mkProblem, evalProblem, exStats, severityOrder]

/-- C1 (amended): the restart-count check overwrites the severity from the
uptime check in both directions — an entity whose uptime classifies as
critical (below 90) and whose maximum restart count lies in [3,5) is
reported with severity warning, not critical. -/
theorem restart_band_overrides (s : ContainerStats)
    (h1 : s.uptime_percent < 90) (h2 : 3 ≤ s.total_restarts)
    (h3 : s.total_restarts < 5) :
    severityOf s = .warning := by
  have h100 : s.uptime_percent < 100 := by linarith
  have hn90 : ¬ s.uptime_percent > 90 := by linarith
  have hpos : s.total_restarts > 0 := by omega
  have hn5 : ¬ s.total_restarts ≥ 5 := by omega
  have h3' : s.total_restarts ≥ 3 := h2
  simp only [severityOf, evalProblem, if_pos h100, if_neg hn90, if_pos hpos,
    if_neg hn5, if_pos h3']
  split_ifs <;> rfl

/-- Witness for C1 (amended) at the concrete stats. -/
theorem restart_band_overrides_witness : severityOf exStats = .warning :=
  restart_band_overrides exStats (by norm_num [exStats])
    (by norm_num [exStats]) (by norm_num [exStats])

/-- C6 counterexample: an entity flagged only for uptime, with
uptime_percent exactly 90, is reported with severity critical, not
warning. -/
theorem uptime_ninety_is_critical :
    identifyProblematicContainers [borderStats] =
      [{ name := "db", severity := .critical, issues := [.uptime 90],
         errors := [], stats_uptime_percent := 90, stats_restarts := 0,
         stats_avg_mem_mb := 0 }]
    ∧ borderStats.uptime_percent = 90 := by
  refine ⟨?_, by norm_num [borderStats]⟩
  norm_num [identifyProblematicContainers, sortProblems, insertProblem,
    mkProblem, evalProblem, borderStats, severityOrder]

/-- C6 (amended): from the uptime check the warning band is
90 < uptime_percent < 100 and the critical band is uptime_percent ≤ 90;
an entity with uptime_percent exactly 90 is reported critical. -/
theorem uptime_band (s : ContainerStats) (h0 : s.total_restarts = 0)
    (he : s.errors = []) (h1 : s.uptime_percent < 100) :
    severityOf s = if 90 < s.uptime_percent then .warning else .critical := by
  simp [severityOf, evalProblem, h0, he, h1]

/-- Witness for C6 (amended): at uptime exactly 90 the severity is
critical. -/
theorem uptime_band_witness : severityOf borderStats = .critical := by
  have h := uptime_band borderStats rfl rfl (by norm_num [borderStats])
  rw [h]
  norm_num [borderStats]

/-! ## Entity health aggregation -/

lemma findStats_eq_none_iff (stats : List (String × StatsAcc)) (n : String) :
    findStats stats n = none ↔ ∀ p ∈ stats, p.1 ≠ n := by
  induction stats with
  | nil => simp [findStats]
  | cons p rest ih =>
    by_cases h : p.1 = n <;> simp [findStats, h, ih]

lemma findStats_some_mem (stats : List (String × StatsAcc)) (n : String)
    (a : StatsAcc) (h : findStats stats n = some a) : (n, a) ∈ stats := by
  induction stats with
  | nil => cases h
  | cons p rest ih =>
    by_cases hp : p.1 = n
    · simp only [findStats, if_pos hp] at h
      cases h
      subst hp
      simp
    · simp only [findStats, if_neg hp] at h
      exact List.mem_cons_of_mem _ (ih h)

lemma findStats_append_left_none (stats l2 : List (String × StatsAcc))
    (n : String) (h : findStats stats n = none) :
    findStats (stats ++ l2) n = findStats l2 n := by
  induction stats with
  | nil => rfl
  | cons p rest ih =>
    by_cases hp : p.1 = n
    · simp [findStats, hp] at h
    · simp only [findStats, if_neg hp] at h ⊢
      exact ih h

lemma replaceStats_of_absent (stats : List (String × StatsAcc)) (n : String)
    (a : StatsAcc) (h : ∀ p ∈ stats, p.1 ≠ n) :
    replaceStats stats n a = stats := by
  induction stats with
  | nil => rfl
  | cons p rest ih =>
    simp only [replaceStats, List.map_cons, if_neg (h p (by simp))]
    exact congrArg (p :: ·) (ih fun q hq => h q (List.mem_cons_of_mem _ hq))

lemma mem_replaceStats (stats : List (String × StatsAcc)) (n : String)
    (a : StatsAcc) (p : String × StatsAcc) (h : p ∈ replaceStats stats n a) :
    p = (n, a) ∨ (p ∈ stats ∧ p.1 ≠ n) := by
  simp only [replaceStats, List.mem_map] at h
  obtain ⟨q, hq, hpq⟩ := h
  by_cases hqn : q.1 = n
  · rw [if_pos hqn] at hpq
    exact Or.inl hpq.symm
  · rw [if_neg hqn] at hpq
    exact Or.inr ⟨hpq ▸ hq, hpq ▸ hqn⟩

lemma findStats_replaceStats_none (stats : List (String × StatsAcc))
    (n m : String) (a : StatsAcc)
    (h : findStats (replaceStats stats n a) m = none) :
    findStats stats m = none := by
  rw [findStats_eq_none_iff] at h ⊢
  intro p hp
  by_cases hpn : p.1 = n
  · have : (n, a) ∈ replaceStats stats n a := by
      simp only [replaceStats, List.mem_map]
      exact ⟨p, hp, by rw [if_pos hpn]⟩
    have := h _ this
    simpa [← hpn] using this
  · have : p ∈ replaceStats stats n a := by
      simp only [replaceStats, List.mem_map]
      exact ⟨p, hp, by rw [if_neg hpn]⟩
    exact h _ this

/-- A record whose status is missing makes the fold step raise. -/
lemma updateStats_none (acc : StatsAcc) (c : ContainerRecord)
    (h : c.status = none) : updateStats acc c = none := by
  simp [updateStats, h]

/-- Normal form of one accumulator update when the status is present. -/
lemma updateStats_eq (acc : StatsAcc) (c : ContainerRecord) (st : String)
    (h : c.status = some st) :
    updateStats acc c = some
      { name := acc.name
        uptime_checks := acc.uptime_checks + (if st = "running" then 1 else 0)
        down_checks := acc.down_checks + (if st = "running" then 0 else 1)
        total_restarts := max acc.total_restarts (c.restarts.getD 0)
        errors := (c.errors.getD []).foldl
          (fun es e => if e ∈ es then es else es ++ [e]) acc.errors
        mem_values := acc.mem_values ++
          (match c.mem_mb with
           | some v => if v ≠ 0 then [v] else []
           | none => [])
        cpu_values := acc.cpu_values ++
          (match c.cpu_percent with
           | some v => if v ≠ 0 then [v] else []
           | none => []) } := by
  rcases hm : c.mem_mb with _ | mv <;> rcases hc : c.cpu_percent with _ | cv <;>
    simp only [updateStats, h, hm, hc, Option.some_bind] <;>
    split_ifs <;>
    simp_all

lemma recordsOf_cons (s : Snapshot) (rest : List Snapshot) :
    recordsOf (s :: rest) = s.containers.getD [] ++ recordsOf rest := by
  simp [recordsOf]

/-- The nested loops over entries and their containers are one fold over
the flat record sequence. -/
lemma foldlM_processEntry_eq (history : List Snapshot) :
    ∀ init, history.foldlM processEntry init =
      (recordsOf history).foldlM processContainer init := by
  induction history with
  | nil => intro init; rfl
  | cons s rest ih =>
    intro init
    rw [List.foldlM_cons, recordsOf_cons, List.foldlM_append]
    exact bind_congr fun b => ih b

lemma aggregateStats_eq (history : List Snapshot) :
    aggregateStats history = (recordsOf history).foldlM processContainer [] :=
  foldlM_processEntry_eq history []

lemma obsP_self (n : String) (c : ContainerRecord) (hn : c.name = some n) :
    obsP n c = true := by
  simp [obsP, hn]

lemma obsP_other {m n : String} (c : ContainerRecord) (hn : c.name = some n)
    (hne : m ≠ n) : obsP m c = false := by
  simp only [obsP, hn]
  exact beq_eq_false_iff_ne.mpr fun h => hne (Option.some_injective _ h).symm

lemma runP_self (n : String) (c : ContainerRecord) (st : String)
    (hn : c.name = some n) (hst : c.status = some st) :
    runP n c = decide (st = "running") := by
  by_cases hr : st = "running" <;> simp [runP, hn, hst, hr]

lemma runP_other {m n : String} (c : ContainerRecord) (hn : c.name = some n)
    (hne : m ≠ n) : runP m c = false := by
  have h := obsP_other c hn hne
  simp only [obsP] at h
  simp [runP, h]

lemma countP_concat {α : Type} (l : List α) (c : α) (p : α → Bool) :
    (l ++ [c]).countP p = l.countP p + (if p c then 1 else 0) := by
  simp [List.countP_append, List.countP_cons]

lemma countP_runP_le_obsP (l : List ContainerRecord) (n : String) :
    l.countP (runP n) ≤ l.countP (obsP n) := by
  apply List.countP_mono_left
  intro c _ h
  simp only [runP, Bool.and_eq_true] at h
  exact h.1

lemma replaceStats_append (l1 l2 : List (String × StatsAcc)) (n : String)
    (A : StatsAcc) :
    replaceStats (l1 ++ l2) n A = replaceStats l1 n A ++ replaceStats l2 n A := by
  simp [replaceStats]

lemma replaceStats_single_hit (n : String) (a A : StatsAcc) :
    replaceStats [(n, a)] n A = [(n, A)] := by
  simp [replaceStats]

/-- Inserting the first accumulator for a fresh name preserves the
invariant. -/
lemma statsInv_insert (seen : List ContainerRecord)
    (stats : List (String × StatsAcc)) (c : ContainerRecord) (n st : String)
    (A : StatsAcc) (hn : c.name = some n) (hst : c.status = some st)
    (hinv : statsInv seen stats) (hfind : findStats stats n = none)
    (hAname : A.name = n)
    (hAup : A.uptime_checks = if st = "running" then 1 else 0)
    (hAtot : A.uptime_checks + A.down_checks = 1) :
    statsInv (seen ++ [c]) (stats ++ [(n, A)]) := by
  have habsent : ∀ p ∈ stats, p.1 ≠ n := (findStats_eq_none_iff stats n).mp hfind
  have hobs0 := hinv.2 n hfind
  have hrun0 : seen.countP (runP n) = 0 :=
    Nat.le_zero.mp (hobs0 ▸ countP_runP_le_obsP seen n)
  constructor
  · intro p hp
    rcases List.mem_append.mp hp with hpmem | hpnew
    · obtain ⟨hname, hup, htot⟩ := hinv.1 p hpmem
      have hpne := habsent p hpmem
      refine ⟨hname, ?_, ?_⟩
      · rw [countP_concat, runP_other c hn hpne]
        simpa using hup
      · rw [countP_concat, obsP_other c hn hpne]
        simpa using htot
    · have hpeq : p = (n, A) := by simpa using hpnew
      subst hpeq
      refine ⟨hAname, ?_, ?_⟩
      · rw [countP_concat, runP_self n c st hn hst, hrun0, hAup]
        by_cases hr : st = "running" <;> simp [hr]
      · rw [countP_concat, obsP_self n c hn, hobs0, hAtot]
        simp
  · intro m hm
    have hmall := (findStats_eq_none_iff _ m).mp hm
    have hmn : m ≠ n := fun hEq => hmall (n, A) (by simp) hEq.symm
    have hstats : findStats stats m = none :=
      (findStats_eq_none_iff stats m).mpr fun p hp =>
        hmall p (List.mem_append_left _ hp)
    rw [countP_concat, obsP_other c hn hmn]
    simpa using hinv.2 m hstats

/-- Replacing the accumulator of a tracked name preserves the invariant. -/
lemma statsInv_replace (seen : List ContainerRecord)
    (stats : List (String × StatsAcc)) (c : ContainerRecord) (n st : String)
    (cur A : StatsAcc) (hn : c.name = some n) (hst : c.status = some st)
    (hinv : statsInv seen stats) (hfind : findStats stats n = some cur)
    (hAname : A.name = cur.name)
    (hAup : A.uptime_checks =
      cur.uptime_checks + (if st = "running" then 1 else 0))
    (hAtot : A.uptime_checks + A.down_checks =
      cur.uptime_checks + cur.down_checks + 1) :
    statsInv (seen ++ [c]) (replaceStats stats n A) := by
  obtain ⟨hcname, hcup, hctot⟩ :=
    hinv.1 (n, cur) (findStats_some_mem stats n cur hfind)
  constructor
  · intro p hp
    rcases mem_replaceStats stats n A p hp with hpeq | ⟨hpmem, hpne⟩
    · subst hpeq
      refine ⟨by rw [hAname]; exact hcname, ?_, ?_⟩
      · rw [countP_concat, runP_self n c st hn hst]
        simp only at hcup ⊢
        rw [hAup, hcup]
        by_cases hr : st = "running" <;> simp [hr]
      · rw [countP_concat, obsP_self n c hn]
        simp only at hctot ⊢
        rw [hAtot, if_pos trivial]
        omega
    · obtain ⟨hname, hup, htot⟩ := hinv.1 p hpmem
      refine ⟨hname, ?_, ?_⟩
      · rw [countP_concat, runP_other c hn hpne]
        simpa using hup
      · rw [countP_concat, obsP_other c hn hpne]
        simpa using htot
  · intro m hm
    have hstats := findStats_replaceStats_none stats n m A hm
    have hmn : m ≠ n := by
      intro hEq
      subst hEq
      rw [hfind] at hstats
      cases hstats
    rw [countP_concat, obsP_other c hn hmn]
    simpa using hinv.2 m hstats

/-- One fold step preserves the counting invariant. -/
lemma processContainer_inv (seen : List ContainerRecord)
    (stats stats' : List (String × StatsAcc)) (c : ContainerRecord)
    (hinv : statsInv seen stats) (h : processContainer stats c = some stats') :
    statsInv (seen ++ [c]) stats' := by
  rcases hn : c.name with _ | n
  · rw [processContainer, hn] at h
    cases h
  rcases hst : c.status with _ | st
  · rw [processContainer, hn] at h
    simp only [Option.pure_def, Option.bind_eq_bind, Option.some_bind] at h
    rw [updateStats_none _ c hst] at h
    cases h
  rw [processContainer, hn] at h
  simp only [Option.pure_def, Option.bind_eq_bind, Option.some_bind] at h
  rcases hfind : findStats stats n with _ | cur
  · simp only [hfind, Option.isSome_none, Bool.false_eq_true, if_false,
      findStats_append_left_none stats _ n hfind, findStats,
      if_pos rfl, Option.getD_some] at h
    rw [updateStats_eq _ c st hst] at h
    simp only [Option.some_bind, Option.some.injEq] at h
    subst h
    have habsent : ∀ p ∈ stats, p.1 ≠ n := (findStats_eq_none_iff stats n).mp hfind
    rw [replaceStats_append, replaceStats_of_absent stats n _ habsent,
      replaceStats_single_hit]
    refine statsInv_insert seen stats c n st _ hn hst hinv hfind ?_ ?_ ?_
    · simp [initStats]
    · by_cases hr : st = "running" <;> simp [initStats, hr]
    · by_cases hr : st = "running" <;> simp [initStats, hr]
  · simp only [hfind, Option.isSome_some, if_true, Option.getD_some] at h
    rw [updateStats_eq _ c st hst] at h
    simp only [Option.some_bind, Option.some.injEq] at h
    subst h
    refine statsInv_replace seen stats c n st cur _ hn hst hinv hfind ?_ ?_ ?_
    · rfl
    · rfl
    · by_cases hr : st = "running" <;> simp [hr] <;> omega

lemma statsInv_nil : statsInv [] [] := by
  constructor
  · intro p hp
    cases hp
  · intro n _
    simp

/-- The whole fold establishes the counting invariant. -/
lemma foldlM_inv (recs : List ContainerRecord) :
    ∀ (seen : List ContainerRecord) (stats stats' : List (String × StatsAcc)),
      statsInv seen stats →
      recs.foldlM processContainer stats = some stats' →
      statsInv (seen ++ recs) stats' := by
  induction recs with
  | nil =>
    intro seen stats stats' hinv h
    simp only [List.foldlM_nil] at h
    cases h
    simpa using hinv
  | cons c rest ih =>
    intro seen stats stats' hinv h
    rw [List.foldlM_cons] at h
    rcases hpc : processContainer stats c with _ | mid
    · rw [hpc] at h
      cases h
    · rw [hpc] at h
      simp only [Option.pure_def, Option.bind_eq_bind, Option.some_bind] at h
      have := ih (seen ++ [c]) mid stats'
        (processContainer_inv seen stats mid c hinv hpc) h
      simpa [List.append_assoc] using this

/-- C8: for every entity in the aggregation output, `uptime_checks` is its
number of running observations in the window, `uptime_checks +
down_checks` its total number of observations, and `uptime_percent` is
`running / (running + down) * 100` rounded to two decimals, or 0 when the
entity has no observations. -/
theorem uptime_percent_formula (maxErrors : ℕ) (history : List Snapshot)
    (stats : List ContainerStats) (s : ContainerStats)
    (hana : analyzeContainerHealth maxErrors history = some stats)
    (hs : s ∈ stats) :
    s.uptime_checks = countRunning s.name history
    ∧ s.uptime_checks + s.down_checks = countObs s.name history
    ∧ s.uptime_percent =
        (if s.uptime_checks + s.down_checks = 0 then 0
         else round2 ((s.uptime_checks : ℚ)
            / ((s.uptime_checks : ℚ) + (s.down_checks : ℚ)) * 100)) := by
  rcases hag : aggregateStats history with _ | acc
  · rw [analyzeContainerHealth, hag] at hana
    cases hana
  rw [analyzeContainerHealth, hag] at hana
  simp only [Option.pure_def, Option.bind_eq_bind, Option.some_bind,
    Option.some.injEq] at hana
  subst hana
  obtain ⟨p, hpmem, hps⟩ := List.mem_map.mp hs
  have hinv : statsInv ([] ++ recordsOf history) acc :=
    foldlM_inv (recordsOf history) [] [] acc statsInv_nil
      (by rw [← aggregateStats_eq]; exact hag)
  rw [List.nil_append] at hinv
  obtain ⟨hname, hup, htot⟩ := hinv.1 p hpmem
  subst hps
  refine ⟨?_, ?_, ?_⟩
  · show p.2.uptime_checks = countRunning (finalizeStats maxErrors p.2).name history
    rw [show (finalizeStats maxErrors p.2).name = p.2.name from rfl, hname]
    exact hup
  · show p.2.uptime_checks + p.2.down_checks =
      countObs (finalizeStats maxErrors p.2).name history
    rw [show (finalizeStats maxErrors p.2).name = p.2.name from rfl, hname]
    exact htot
  · show (finalizeStats maxErrors p.2).uptime_percent = _
    simp only [finalizeStats]
    rcases Nat.eq_zero_or_pos (p.2.uptime_checks + p.2.down_checks) with h0 | h0
    · simp [h0]
    · rw [if_pos h0, if_neg (by omega)]
      congr 2
      push_cast
      ring

/-- Witness for C8: ten snapshots with `web` running in nine of them give
uptime_percent exactly 90. -/
theorem uptime_percent_formula_witness :
    analyzeContainerHealth 10 hist10 = some [webStats]
    ∧ webStats.uptime_checks = countRunning webStats.name hist10
    ∧ webStats.uptime_checks + webStats.down_checks = countObs webStats.name hist10
    ∧ webStats.uptime_percent = 90 := by
  have hag : aggregateStats hist10 = some [("web", webAcc)] := by decide
  have hana : analyzeContainerHealth 10 hist10 = some [webStats] := by
    rw [analyzeContainerHealth, hag]
    norm_num [finalizeStats, webAcc, webStats, round2, roundHalfEven]
  have h := uptime_percent_formula 10 hist10 [webStats] webStats hana (by simp)
  exact ⟨hana, h.1, h.2.1, by norm_num [webStats]⟩

/-- C9 counterexample: a container record missing its `status` key — or
its `name` key — makes the whole aggregation raise (`none`), it is not
treated as zero/empty. -/
theorem missing_required_field_crashes :
    analyzeContainerHealth 10
      [⟨some [⟨some "web", none, none, none, none, none⟩]⟩] = none
    ∧ analyzeContainerHealth 10
      [⟨some [⟨none, some "running", none, none, none, none⟩]⟩] = none :=
  ⟨by decide, by decide⟩

lemma processContainer_isSome (stats : List (String × StatsAcc))
    (c : ContainerRecord) (hn : c.name ≠ none) (hst : c.status ≠ none) :
    (processContainer stats c).isSome := by
  rcases hn' : c.name with _ | n
  · exact absurd hn' hn
  rcases hst' : c.status with _ | st
  · exact absurd hst' hst
  rw [processContainer, hn']
  simp only [Option.pure_def, Option.bind_eq_bind, Option.some_bind]
  rw [updateStats_eq _ c st hst']
  simp

lemma foldlM_processContainer_isSome (recs : List ContainerRecord) :
    ∀ stats, (∀ c ∈ recs, c.name ≠ none ∧ c.status ≠ none) →
      (recs.foldlM processContainer stats).isSome := by
  induction recs with
  | nil =>
    intro stats _
    simp
  | cons c rest ih =>
    intro stats hall
    rw [List.foldlM_cons]
    obtain ⟨h1, h2⟩ := hall c (by simp)
    rcases hpc : processContainer stats c with _ | mid
    · have := processContainer_isSome stats c h1 h2
      rw [hpc] at this
      cases this
    · simp only [Option.pure_def, Option.bind_eq_bind, Option.some_bind]
      exact ih mid fun d hd => hall d (List.mem_cons_of_mem _ hd)

/-- C9 (amended): the aggregation degrades gracefully on records whose
optional fields (`restarts`, `mem_mb`, `cpu_percent`, `errors`) are
absent — they are treated as zero/empty — and never raises as long as
every record carries its required `name` and `status` keys; a record
missing one of those two keys aborts the aggregation with a KeyError. -/
theorem analyze_total_on_required (maxErrors : ℕ) (history : List Snapshot)
    (h : ∀ s ∈ history, ∀ c ∈ s.containers.getD [],
      c.name ≠ none ∧ c.status ≠ none) :
    (analyzeContainerHealth maxErrors history).isSome := by
  have hrec : ∀ c ∈ recordsOf history, c.name ≠ none ∧ c.status ≠ none := by
    intro c hc
    simp only [recordsOf, List.mem_flatten] at hc
    obtain ⟨l, hl, hcl⟩ := hc
    obtain ⟨s, hsmem, rfl⟩ := List.mem_map.mp hl
    exact h s hsmem c hcl
  have hsome := foldlM_processContainer_isSome (recordsOf history) [] hrec
  rw [← aggregateStats_eq] at hsome
  rcases hag : aggregateStats history with _ | acc
  · rw [hag] at hsome
    cases hsome
  · rw [analyzeContainerHealth, hag]
    simp

/-- Witness for C9 (amended): a window whose records carry only `name` and
`status` (every optional field absent, one entry without a `containers`
key) is aggregated without raising. -/
theorem analyze_total_on_required_witness :
    (analyzeContainerHealth 10 degradedHist).isSome :=
  analyze_total_on_required 10 degradedHist (by decide)

end AsmoHealth
